import Mathlib

/-!
Verification of the MolecularVolumeAverage repository
(src/03.calculate_cuboid_volume.py) against its specification.

The Python program is shallowly embedded over exact rationals.  Library
behaviour that is external to the repository is taken as an oracle
parameter: the token-to-float conversion performed by Python's
float (parameter pf), the symmetric eigensolver np.linalg.eigh
(parameter eigh, which may fail like LinAlgError does), the file-system
predicate os.path.exists (parameter pathExists) and the file reader
(parameter readLines).  Everything written in the repository itself
(the delimiter scan, line tokenisation, covariance computation of
np.cov, eigenvalue sorting, projection and extents, cube volume,
the per-file driver loop with its dictionary, and the CSV writer)
is embedded concretely below.
-/

set_option allowUnsafeReducibility true

attribute [semireducible] Rat.mul Rat.inv Rat.add Rat.sub Rat.neg Rat.div Rat.blt Rat.normalize

deriving instance DecidableEq for Except

namespace MolVol

/-- A 3-vector of exact rational coordinates (models one atom position). -/
structure Vec3 where
  x : ℚ
  y : ℚ
  z : ℚ
deriving DecidableEq

/-- A 3x3 matrix given by its three columns (models a numpy 3x3 array;
for the eigenvector matrix the columns are the eigenvectors). -/
structure Mat3 where
  c0 : Vec3
  c1 : Vec3
  c2 : Vec3
deriving DecidableEq

def Vec3.sub (a b : Vec3) : Vec3 := ⟨a.x - b.x, a.y - b.y, a.z - b.z⟩

def Vec3.addv (a b : Vec3) : Vec3 := ⟨a.x + b.x, a.y + b.y, a.z + b.z⟩

def dot (a b : Vec3) : ℚ := a.x * b.x + a.y * b.y + a.z * b.z

def vzero : Vec3 := ⟨0, 0, 0⟩

/-! ## Geometry parser (parse_geometry_file) -/

/-- Whether a character list begins with five dashes. -/
def startsWithDashes : List Char → Bool
  | '-' :: '-' :: '-' :: '-' :: '-' :: _ => true
  | _ => false

/-- Python `'-----' in line`: some position of the line starts five dashes. -/
def hasDashes : List Char → Bool
  | [] => false
  | c :: rest => startsWithDashes (c :: rest) || hasDashes rest

/-- Python `line.strip()` is truthy: the line holds a non-whitespace char. -/
def hasNonWS (line : List Char) : Bool :=
  line.any (fun c => !c.isWhitespace)

/-- Helper for pywords: accumulates the current token (reversed) while
scanning; models the run-of-whitespace splitting of Python str.split(). -/
def wordsAux : List Char → List Char → List (List Char)
  | acc, [] => if acc.isEmpty then [] else [acc.reverse]
  | acc, c :: rest =>
    if c.isWhitespace then
      if acc.isEmpty then wordsAux [] rest else acc.reverse :: wordsAux [] rest
    else wordsAux (c :: acc) rest

/-- Python `line.split()`: split on whitespace runs, dropping empty tokens. -/
def pywords (line : List Char) : List (List Char) :=
  wordsAux [] line

/-- Token `parts[-1-k]` counted from the end (parts[-3] is lastTok parts 2). -/
def lastTok (parts : List (List Char)) (k : ℕ) : List Char :=
  parts.reverse.getD k []

section Oracles

variable (pf : List Char → Option ℚ)
variable (eigh : Mat3 → Except String (Vec3 × Mat3))
variable (pathExists : String → Bool)
variable (readLines : String → List (List Char))

/-- One data line of parse_geometry_file: split into tokens; with at least 6
tokens, convert the last three with float (oracle pf); if all three convert,
the triple (x, y, z); otherwise nothing (the line is skipped). -/
def lineTriple (line : List Char) : Option Vec3 :=
  let parts := pywords line
  if 6 ≤ parts.length then
    match pf (lastTok parts 2), pf (lastTok parts 1), pf (lastTok parts 0) with
    | some xv, some yv, some zv => some ⟨xv, yv, zv⟩
    | _, _, _ => none
  else none

/-- The line loop of parse_geometry_file with its data_start flag: the first
line containing '-----' flips the flag and is itself skipped; afterwards each
non-blank line is offered to lineTriple. -/
def parseLoop : List (List Char) → Bool → List Vec3
  | [], _ => []
  | line :: rest, dataStart =>
    if hasDashes line && !dataStart then parseLoop rest true
    else if dataStart && hasNonWS line then
      match lineTriple pf line with
      | some v => v :: parseLoop rest dataStart
      | none => parseLoop rest dataStart
    else parseLoop rest dataStart

/-- parse_geometry_file of the source, on the list of lines of the file. -/
def parse_geometry_file (lines : List (List Char)) : List Vec3 :=
  parseLoop pf lines false

/-- Spec-side parser: the lines strictly after the first '-----' line. -/
def linesAfterDelim : List (List Char) → List (List Char)
  | [] => []
  | line :: rest => if hasDashes line then rest else linesAfterDelim rest

/-- Spec-side parser: exactly the triples of the post-delimiter lines, in
file order, each line contributing through lineTriple or nothing. -/
def parseSpec (lines : List (List Char)) : List Vec3 :=
  (linesAfterDelim lines).filterMap (lineTriple pf)

end Oracles

/-! ## OBB / cube volume calculator -/

/-- Mean of a list of rationals (a numpy row mean; division by zero is the
junk value 0, never reached on the inputs the claims quantify over). -/
def rowMean (xs : List ℚ) : ℚ :=
  xs.sum / (xs.length : ℚ)

/-- One entry of np.cov: np.cov re-centers each row at its own mean, then
divides the dot product of rows by N-1 (its default unbiased normalization). -/
def covEntry (xs ys : List ℚ) : ℚ :=
  let xc := xs.map (fun a => a - rowMean xs)
  let yc := ys.map (fun a => a - rowMean ys)
  ((xc.zip yc).map (fun q => q.1 * q.2)).sum / ((xs.length : ℚ) - 1)

/-- np.cov(centered.T): rows of the numpy input are the three coordinate
slices of the point list; column j of the result holds Cov[i][j] for i. -/
def np_cov (pts : List Vec3) : Mat3 :=
  let xs := pts.map Vec3.x
  let ys := pts.map Vec3.y
  let zs := pts.map Vec3.z
  ⟨⟨covEntry xs xs, covEntry ys xs, covEntry zs xs⟩,
   ⟨covEntry xs ys, covEntry ys ys, covEntry zs ys⟩,
   ⟨covEntry xs zs, covEntry ys zs, covEntry zs zs⟩⟩

/-- np.mean(coordinates, axis=0): the component-wise mean point. -/
def meanPoint (coords : List Vec3) : Vec3 :=
  ⟨rowMean (coords.map Vec3.x), rowMean (coords.map Vec3.y), rowMean (coords.map Vec3.z)⟩

/-- The centered cloud: every point minus the mean point. -/
def centeredOf (coords : List Vec3) : List Vec3 :=
  coords.map (fun p => p.sub (meanPoint coords))

/-- The covariance matrix the calculator hands to the eigensolver. -/
def covOfPoints (coords : List Vec3) : Mat3 :=
  np_cov (centeredOf coords)

/-- Insertion into a list sorted by the boolean comparison le. -/
def insertBy {α : Type} (le : α → α → Bool) (a : α) : List α → List α
  | [] => [a]
  | b :: rest => if le a b then a :: b :: rest else b :: insertBy le a rest

/-- Insertion sort by the boolean comparison le (ascending, stable). -/
def sortBy {α : Type} (le : α → α → Bool) : List α → List α
  | [] => []
  | a :: rest => insertBy le a (sortBy le rest)

/-- Comparison of (eigenvalue, eigenvector) pairs by eigenvalue. -/
def pairLe (a b : ℚ × Vec3) : Bool :=
  decide (a.1 ≤ b.1)

/-- np.argsort on the eigenvalues followed by [::-1] and fancy indexing:
the pairs sorted ascending by eigenvalue, then reversed, so the eigenvalues
come out descending. -/
def sortPairsDesc (prs : List (ℚ × Vec3)) : List (ℚ × Vec3) :=
  (sortBy pairLe prs).reverse

/-- The info dictionary returned by calculate_oriented_cuboid_volume. -/
structure Info where
  center : Vec3
  length : ℚ
  width : ℚ
  height : ℚ
  principal_axes : Mat3
  eigenvalues : Vec3
  num_atoms : ℕ
deriving DecidableEq

/-- np.min of a rational list (0 on the empty list, never reached). -/
def listMin : List ℚ → ℚ
  | [] => 0
  | a :: l => l.foldl min a

/-- np.max of a rational list (0 on the empty list, never reached). -/
def listMax : List ℚ → ℚ
  | [] => 0
  | a :: l => l.foldl max a

/-- The part of calculate_oriented_cuboid_volume after np.linalg.eigh
returns: sort the eigenpairs descending, project the centered points onto
the sorted axes, take max minus min per axis, multiply the dimensions. -/
def obbOf (centered : List Vec3) (center : Vec3) (nAtoms : ℕ)
    (eigenvalues : Vec3) (eigenvectors : Mat3) : ℚ × Info :=
  let pairs := [(eigenvalues.x, eigenvectors.c0), (eigenvalues.y, eigenvectors.c1),
                (eigenvalues.z, eigenvectors.c2)]
  let sorted := sortPairsDesc pairs
  let a0 := (sorted.getD 0 (0, vzero)).2
  let a1 := (sorted.getD 1 (0, vzero)).2
  let a2 := (sorted.getD 2 (0, vzero)).2
  let projected := centered.map (fun p => (⟨dot p a0, dot p a1, dot p a2⟩ : Vec3))
  let min_coords : Vec3 :=
    ⟨listMin (projected.map Vec3.x), listMin (projected.map Vec3.y), listMin (projected.map Vec3.z)⟩
  let max_coords : Vec3 :=
    ⟨listMax (projected.map Vec3.x), listMax (projected.map Vec3.y), listMax (projected.map Vec3.z)⟩
  let dimensions := max_coords.sub min_coords
  let volume := dimensions.x * dimensions.y * dimensions.z
  (volume,
   { center := center
     length := dimensions.x
     width := dimensions.y
     height := dimensions.z
     principal_axes := ⟨a0, a1, a2⟩
     eigenvalues := ⟨(sorted.getD 0 (0, vzero)).1, (sorted.getD 1 (0, vzero)).1,
                     (sorted.getD 2 (0, vzero)).1⟩
     num_atoms := nAtoms })

/-- calculate_oriented_cuboid_volume of the source: center, covariance,
eigendecomposition (oracle eigh, failing like np.linalg.eigh can), then the
sorted-projection bounding box.  An eigensolver failure propagates out of
the function as the exception does in Python. -/
def calculate_oriented_cuboid_volume (eigh : Mat3 → Except String (Vec3 × Mat3))
    (coordinates : List Vec3) : Except String (ℚ × Info) :=
  let center := meanPoint coordinates
  let centered := coordinates.map (fun p => p.sub center)
  let cov_matrix := np_cov centered
  match eigh cov_matrix with
  | .error e => .error e
  | .ok (eigenvalues, eigenvectors) =>
      .ok (obbOf centered center coordinates.length eigenvalues eigenvectors)

/-- calculate_enclosed_cube_volume of the source: the largest dimension of
the oriented box, cubed. -/
def calculate_enclosed_cube_volume (info : Info) : ℚ :=
  (max (max info.length info.width) info.height) ^ 3

/-! ## Spec-side calculator (written from the words of the claim) -/

/-- Spec-side centroid: the component-wise arithmetic mean. -/
def centroidSpec (points : List Vec3) : Vec3 :=
  ⟨(points.map Vec3.x).sum / (points.length : ℚ),
   (points.map Vec3.y).sum / (points.length : ℚ),
   (points.map Vec3.z).sum / (points.length : ℚ)⟩

/-- Spec-side covariance entry: (1/(N-1)) * sum over points of the product
of the two chosen components of the centered point, with no re-centering. -/
def covSpecEntry (centered : List Vec3) (f g : Vec3 → ℚ) : ℚ :=
  (centered.map (fun p => f p * g p)).sum / ((centered.length : ℚ) - 1)

/-- Spec-side covariance matrix, entry-wise from covSpecEntry. -/
def covSpec (centered : List Vec3) : Mat3 :=
  ⟨⟨covSpecEntry centered Vec3.x Vec3.x, covSpecEntry centered Vec3.y Vec3.x,
    covSpecEntry centered Vec3.z Vec3.x⟩,
   ⟨covSpecEntry centered Vec3.x Vec3.y, covSpecEntry centered Vec3.y Vec3.y,
    covSpecEntry centered Vec3.z Vec3.y⟩,
   ⟨covSpecEntry centered Vec3.x Vec3.z, covSpecEntry centered Vec3.y Vec3.z,
    covSpecEntry centered Vec3.z Vec3.z⟩⟩

/-- Spec-side extent: max minus min of the points projected onto one axis. -/
def extentAlong (centered : List Vec3) (a : Vec3) : ℚ :=
  listMax (centered.map (fun p => dot p a)) - listMin (centered.map (fun p => dot p a))

/-- Spec-side calculator, following the claim sentence for sentence:
mean centroid, centered points, unbiased covariance entries, eigenpairs
sorted by eigenvalue descending, per-axis extents, product volume. -/
def calcSpec (eigh : Mat3 → Except String (Vec3 × Mat3))
    (points : List Vec3) : Except String (ℚ × Info) :=
  let centroid := centroidSpec points
  let centered := points.map (fun p => p.sub centroid)
  match eigh (covSpec centered) with
  | .error e => .error e
  | .ok (vals, vecs) =>
      let sorted := sortPairsDesc [(vals.x, vecs.c0), (vals.y, vecs.c1), (vals.z, vecs.c2)]
      let axes := sorted.map Prod.snd
      let d0 := extentAlong centered (axes.getD 0 vzero)
      let d1 := extentAlong centered (axes.getD 1 vzero)
      let d2 := extentAlong centered (axes.getD 2 vzero)
      .ok (d0 * d1 * d2,
        { center := centroid
          length := d0
          width := d1
          height := d2
          principal_axes := ⟨axes.getD 0 vzero, axes.getD 1 vzero, axes.getD 2 vzero⟩
          eigenvalues := ⟨(sorted.map Prod.fst).getD 0 0, (sorted.map Prod.fst).getD 1 0,
                          (sorted.map Prod.fst).getD 2 0⟩
          num_atoms := points.length })

/-! ## Batch driver (process_files) -/

/-- The value tuple stored per file: (volume, info, cube_volume). -/
abbrev Entry := ℚ × Info × ℚ

/-- os.path.basename for POSIX paths: the part after the last slash
(the whole path when no slash occurs). -/
def basename (p : String) : String :=
  String.mk ((p.data.reverse.takeWhile (fun c => c ≠ '/')).reverse)

/-- Python dict assignment results[k] = v on an insertion-ordered
association list: replace in place when the key is present, else append. -/
def dictInsert (d : List (String × Entry)) (k : String) (v : Entry) :
    List (String × Entry) :=
  if d.any (fun q => q.1 == k) then
    d.map (fun q => if q.1 == k then (k, v) else q)
  else d ++ [(k, v)]

/-- Python dict lookup on the association list. -/
def dictGet (d : List (String × Entry)) (k : String) : Option Entry :=
  (d.find? (fun q => q.1 == k)).map Prod.snd

/-- How many stored items carry the key (1 for every key of a dict). -/
def countKey (d : List (String × Entry)) (k : String) : ℕ :=
  d.countP (fun q => q.1 == k)

section Driver

variable (pf : List Char → Option ℚ)
variable (eigh : Mat3 → Except String (Vec3 × Mat3))
variable (pathExists : String → Bool)
variable (readLines : String → List (List Char))

/-- What one loop iteration of process_files contributes for a file:
nothing when the path is missing, when the parser returns zero points, or
when the computation raises (the driver's except catches it); otherwise the
(volume, info, cube_volume) tuple. -/
def fileEntry (filepath : String) : Option Entry :=
  if pathExists filepath then
    let coordinates := parse_geometry_file pf (readLines filepath)
    if coordinates.length = 0 then none
    else
      match calculate_oriented_cuboid_volume eigh coordinates with
      | .error _ => none
      | .ok (volume, info) => some (volume, info, calculate_enclosed_cube_volume info)
  else none

/-- One iteration of the loop body of process_files on the results dict. -/
def processOne (results : List (String × Entry)) (filepath : String) :
    List (String × Entry) :=
  match fileEntry pf eigh pathExists readLines filepath with
  | none => results
  | some e => dictInsert results (basename filepath) e

/-- process_files of the source: fold the per-file step over the file list,
starting from the empty results dict, keying by basename. -/
def process_files (file_list : List String) : List (String × Entry) :=
  file_list.foldl (processOne pf eigh pathExists readLines) []

end Driver

/-! ## CSV writer of main -/

/-- Round to the nearest integer, ties to even (the rounding of a value
formatted with two decimals). -/
def roundHalfEven (q : ℚ) : ℤ :=
  let f := ⌊q⌋
  let r := q - f
  if r < 1 / 2 then f
  else if 1 / 2 < r then f + 1
  else if f % 2 = 0 then f else f + 1

/-- Two-digit zero-padded print of a number below 100. -/
def pad2 (n : ℕ) : String :=
  if n < 10 then "0" ++ toString n else toString n

/-- Python format .2f of an exact rational value. -/
def format2 (q : ℚ) : String :=
  let m := roundHalfEven (q * 100)
  let a := m.natAbs
  let body := toString (a / 100) ++ "." ++ pad2 (a % 100)
  if q < 0 then "-" ++ body else body

/-- The header line main writes to cuboid_volumes.csv. -/
def csv_header : String :=
  "Filename,Cuboid_Volume (Å³),Cube_Volume (Å³),Num_Atoms,Length (Å),Width (Å),Height (Å)"

/-- One CSV data row of main: filename, the two volumes and the three
dimensions at two decimals, the atom count as a plain integer. -/
def csv_row (p : String × Entry) : String :=
  p.1 ++ "," ++ format2 p.2.1 ++ "," ++ format2 p.2.2.2 ++ "," ++
    toString p.2.2.1.num_atoms ++ "," ++ format2 p.2.2.1.length ++ "," ++
    format2 p.2.2.1.width ++ "," ++ format2 p.2.2.1.height

/-- Comparison of result items by filename (Python sorted on dict items,
whose keys are distinct, orders by the string key). -/
def itemLe (a b : String × Entry) : Bool :=
  decide (a.1 ≤ b.1)

/-- sorted(results.items()): the result items sorted by filename. -/
def sortItems (rs : List (String × Entry)) : List (String × Entry) :=
  sortBy itemLe rs

/-- The lines of cuboid_volumes.csv: the header, then one row per result
item in filename order. -/
def write_csv (results : List (String × Entry)) : List String :=
  csv_header :: (sortItems results).map csv_row

/-- Spec-side row shape: the comma join of a field list. -/
def joinComma : List String → String
  | [] => ""
  | [s] => s
  | s :: rest => s ++ "," ++ joinComma rest

/-! ## Concrete instances used by witnesses and counterexamples -/

/-- The covariance matrix of the two-point cloud (0,0,0), (2,0,0). -/
def demoCov : Mat3 := ⟨⟨2, 0, 0⟩, ⟨0, 0, 0⟩, ⟨0, 0, 0⟩⟩

/-- A concrete eigensolver oracle, giving for demoCov the ascending
eigendecomposition np.linalg.eigh produces for diag(2,0,0): eigenvalues
(0,0,2) with unit eigenvector columns. -/
def eighDemo : Mat3 → Except String (Vec3 × Mat3) :=
  fun m =>
    if m = demoCov then .ok (⟨0, 0, 2⟩, ⟨⟨0, 1, 0⟩, ⟨0, 0, 1⟩, ⟨1, 0, 0⟩⟩)
    else .error "LinAlgError"

/-- A concrete float oracle for the tokens of the demo geometry files. -/
def pfDemo : List Char → Option ℚ :=
  fun t =>
    if t = "0.0".toList then some 0
    else if t = "2.0".toList then some 2
    else none

/-- Lines of a well-formed demo geometry file with two atoms. -/
def demoLines : List (List Char) :=
  ["Standard orientation:".toList, "-----".toList,
   "1 C 6 2.0 0.0 0.0".toList, "2 C 6 0.0 0.0 0.0".toList]

/-- A demo read oracle: one path holds a file with no delimiter line (zero
parseable points), every other path holds the two-atom demo file. -/
def readDemo : String → List (List Char) :=
  fun p => if p = "empty_last_geom.txt" then ["no delimiter here".toList] else demoLines

/-- A file-system oracle on which every path exists. -/
def allExist : String → Bool := fun _ => true

/-- The two-point demo cloud, first atom at (2,0,0), second at (0,0,0). -/
def demoPts : List Vec3 := [⟨2, 0, 0⟩, ⟨0, 0, 0⟩]

/-- The OBB info the calculator computes for demoPts under eighDemo. -/
def infoDemo : Info :=
  ⟨⟨1, 0, 0⟩, 2, 0, 0, ⟨⟨1, 0, 0⟩, ⟨0, 0, 1⟩, ⟨0, 1, 0⟩⟩, ⟨2, 0, 0⟩, 2⟩

/-- The results-dict entry the driver stores for the two-atom demo file. -/
def demoEntry : Entry := (0, infoDemo, 8)

/-- The zero 3x3 matrix (covariance of a cloud of identical points). -/
def mzero : Mat3 := ⟨vzero, vzero, vzero⟩

/-- A concrete eigensolver oracle for the zero covariance matrix, giving
what np.linalg.eigh gives there: zero eigenvalues, identity eigenvectors. -/
def eighZ : Mat3 → Except String (Vec3 × Mat3) :=
  fun m =>
    if m = mzero then .ok (⟨0, 0, 0⟩, ⟨⟨1, 0, 0⟩, ⟨0, 1, 0⟩, ⟨0, 0, 1⟩⟩)
    else .error "LinAlgError"

/-- The OBB info computed for two copies of the point (1,2,3) under eighZ. -/
def infoC5 : Info :=
  ⟨⟨1, 2, 3⟩, 0, 0, 0, ⟨⟨0, 0, 1⟩, ⟨0, 1, 0⟩, ⟨1, 0, 0⟩⟩, ⟨0, 0, 0⟩, 2⟩

/-! ## General lemmas on the sorting and folding primitives -/

theorem insertBy_perm {α : Type} (le : α → α → Bool) (a : α) (l : List α) :
    List.Perm (insertBy le a l) (a :: l) := by
  induction l with
  | nil => exact List.Perm.refl _
  | cons b rest ih =>
    simp only [insertBy]
    by_cases h : le a b = true
    · rw [if_pos h]
    · rw [if_neg h]
      exact (ih.cons b).trans (List.Perm.swap a b rest)

theorem sortBy_perm {α : Type} (le : α → α → Bool) (l : List α) : List.Perm (sortBy le l) l := by
  induction l with
  | nil => exact List.Perm.refl _
  | cons a rest ih => exact (insertBy_perm le a (sortBy le rest)).trans (ih.cons a)

theorem mem_insertBy {α : Type} (le : α → α → Bool) (a x : α) (l : List α) :
    x ∈ insertBy le a l ↔ x = a ∨ x ∈ l := by
  rw [(insertBy_perm le a l).mem_iff]
  simp

theorem insertBy_pairwise {α : Type} (le : α → α → Bool)
    (htot : ∀ a b, le a b = true ∨ le b a = true)
    (htr : ∀ a b c, le a b = true → le b c = true → le a c = true)
    (a : α) (l : List α) (h : l.Pairwise (fun u v => le u v = true)) :
    (insertBy le a l).Pairwise (fun u v => le u v = true) := by
  induction l with
  | nil => simp [insertBy]
  | cons b rest ih =>
    obtain ⟨hb, hrest⟩ := List.pairwise_cons.mp h
    simp only [insertBy]
    by_cases hab : le a b = true
    · rw [if_pos hab]
      refine List.Pairwise.cons ?_ (List.Pairwise.cons hb hrest)
      intro x hx
      rcases List.mem_cons.mp hx with rfl | hx2
      · exact hab
      · exact htr a b x hab (hb x hx2)
    · rw [if_neg hab]
      have hba : le b a = true := (htot a b).resolve_left hab
      refine List.Pairwise.cons ?_ (ih hrest)
      intro x hx
      rcases (mem_insertBy le a x rest).mp hx with rfl | hx2
      · exact hba
      · exact hb x hx2

theorem sortBy_pairwise {α : Type} (le : α → α → Bool)
    (htot : ∀ a b, le a b = true ∨ le b a = true)
    (htr : ∀ a b c, le a b = true → le b c = true → le a c = true)
    (l : List α) : (sortBy le l).Pairwise (fun u v => le u v = true) := by
  induction l with
  | nil => simp [sortBy]
  | cons a rest ih => exact insertBy_pairwise le htot htr a (sortBy le rest) ih

theorem foldl_min_le (l : List ℚ) (a : ℚ) : l.foldl min a ≤ a := by
  induction l generalizing a with
  | nil => exact le_refl a
  | cons b rest ih =>
    calc rest.foldl min (min a b) ≤ min a b := ih (min a b)
    _ ≤ a := min_le_left a b

theorem le_foldl_max (l : List ℚ) (a : ℚ) : a ≤ l.foldl max a := by
  induction l generalizing a with
  | nil => exact le_refl a
  | cons b rest ih =>
    calc a ≤ max a b := le_max_left a b
    _ ≤ rest.foldl max (max a b) := ih (max a b)

theorem listMin_le_listMax (l : List ℚ) (h : l ≠ []) : listMin l ≤ listMax l := by
  cases l with
  | nil => exact absurd rfl h
  | cons a rest =>
    calc rest.foldl min a ≤ a := foldl_min_le rest a
    _ ≤ rest.foldl max a := le_foldl_max rest a

theorem foldl_min_const (c : ℚ) (l : List ℚ) (h : ∀ x ∈ l, x = c) : l.foldl min c = c := by
  induction l with
  | nil => rfl
  | cons b rest ih =>
    have hb : b = c := h b (List.mem_cons_self b rest)
    have : ∀ x ∈ rest, x = c := fun x hx => h x (List.mem_cons_of_mem b hx)
    simp only [List.foldl_cons, hb, min_self]
    exact ih this

theorem foldl_max_const (c : ℚ) (l : List ℚ) (h : ∀ x ∈ l, x = c) : l.foldl max c = c := by
  induction l with
  | nil => rfl
  | cons b rest ih =>
    have hb : b = c := h b (List.mem_cons_self b rest)
    have : ∀ x ∈ rest, x = c := fun x hx => h x (List.mem_cons_of_mem b hx)
    simp only [List.foldl_cons, hb, max_self]
    exact ih this

theorem listMin_const (c : ℚ) (l : List ℚ) (h0 : l ≠ []) (h : ∀ x ∈ l, x = c) :
    listMin l = c := by
  cases l with
  | nil => exact absurd rfl h0
  | cons a rest =>
    have ha : a = c := h a (List.mem_cons_self a rest)
    subst ha
    exact foldl_min_const a rest (fun x hx => h x (List.mem_cons_of_mem a hx))

theorem listMax_const (c : ℚ) (l : List ℚ) (h0 : l ≠ []) (h : ∀ x ∈ l, x = c) :
    listMax l = c := by
  cases l with
  | nil => exact absurd rfl h0
  | cons a rest =>
    have ha : a = c := h a (List.mem_cons_self a rest)
    subst ha
    exact foldl_max_const a rest (fun x hx => h x (List.mem_cons_of_mem a hx))

theorem sum_map_sub (l : List ℚ) (c : ℚ) :
    (l.map (fun a => a - c)).sum = l.sum - (l.length : ℚ) * c := by
  induction l with
  | nil => simp
  | cons b rest ih =>
    simp only [List.map_cons, List.sum_cons, List.length_cons, ih]
    push_cast
    ring

theorem sum_map_add (l : List ℚ) (c : ℚ) :
    (l.map (fun a => a + c)).sum = l.sum + (l.length : ℚ) * c := by
  induction l with
  | nil => simp
  | cons b rest ih =>
    simp only [List.map_cons, List.sum_cons, List.length_cons, ih]
    push_cast
    ring

theorem sum_const_list (c : ℚ) (l : List ℚ) (h : ∀ x ∈ l, x = c) :
    l.sum = (l.length : ℚ) * c := by
  induction l with
  | nil => simp
  | cons b rest ih =>
    have hb : b = c := h b (List.mem_cons_self b rest)
    have hr := ih (fun x hx => h x (List.mem_cons_of_mem b hx))
    simp only [List.sum_cons, List.length_cons, hb, hr]
    push_cast
    ring

/-! ## Parser lemmas -/

theorem wordsAux_nil_of_ws (l : List Char) (h : ∀ c ∈ l, c.isWhitespace = true) :
    wordsAux [] l = [] := by
  induction l with
  | nil => rfl
  | cons c rest ih =>
    have hc : c.isWhitespace = true := h c (List.mem_cons_self c rest)
    simp only [wordsAux, hc, if_true, List.isEmpty_nil]
    exact ih (fun d hd => h d (List.mem_cons_of_mem c hd))

theorem lineTriple_blank (pf : List Char → Option ℚ) (line : List Char)
    (h : hasNonWS line = false) : lineTriple pf line = none := by
  have hws : ∀ c ∈ line, c.isWhitespace = true := by
    intro c hc
    have hcc := List.any_eq_false.mp h c hc
    simp only [Bool.not_eq_true'] at hcc
    cases hI : c.isWhitespace
    · exact absurd hI hcc
    · rfl
  simp [lineTriple, pywords, wordsAux_nil_of_ws line hws]

theorem parseLoop_true (pf : List Char → Option ℚ) (ls : List (List Char)) :
    parseLoop pf ls true = ls.filterMap (lineTriple pf) := by
  induction ls with
  | nil => rfl
  | cons line rest ih =>
    simp only [parseLoop, Bool.not_true, Bool.and_false, Bool.false_eq_true, if_false,
      Bool.true_and, List.filterMap_cons]
    by_cases hNW : hasNonWS line = true
    · rw [if_pos hNW]
      cases h : lineTriple pf line with
      | some v => simp [ih]
      | none => simp [ih]
    · have hb : hasNonWS line = false := by
        cases hW : hasNonWS line
        · rfl
        · exact absurd hW hNW
      rw [if_neg hNW, lineTriple_blank pf line hb, ih]

/-- Claim C1: for every input text, parse_geometry_file returns exactly the
triples extracted in file order from the lines strictly after the first line
containing '-----': a line with at least 6 whitespace-separated tokens whose
last three tokens all convert to floats contributes that (x, y, z) triple,
and every other line (blank, short, or unconvertible) contributes nothing. -/
theorem c1_parse_exactly_spec (pf : List Char → Option ℚ) (lines : List (List Char)) :
    parse_geometry_file pf lines = parseSpec pf lines := by
  unfold parse_geometry_file parseSpec
  induction lines with
  | nil => rfl
  | cons line rest ih =>
    by_cases hD : hasDashes line = true
    · simp only [parseLoop, linesAfterDelim, hD, Bool.not_false, Bool.and_true, if_true]
      exact parseLoop_true pf rest
    · have hDf : hasDashes line = false := by
        cases hW : hasDashes line
        · rfl
        · exact absurd hW hD
      simp only [parseLoop, linesAfterDelim, hDf, Bool.false_and, Bool.false_eq_true, if_false,
        Bool.and_self]
      exact ih

/-! ## Calculator lemmas -/

theorem rowMean_center (l : List ℚ) (h : l ≠ []) :
    rowMean (l.map (fun a => a - rowMean l)) = 0 := by
  have hn : (l.length : ℚ) ≠ 0 := by
    have h0 : l.length ≠ 0 := fun h0 => h (List.length_eq_zero.mp h0)
    exact_mod_cast h0
  have key : (l.length : ℚ) * (l.sum / (l.length : ℚ)) = l.sum := by
    rw [mul_comm]
    exact div_mul_cancel₀ l.sum hn
  simp only [rowMean, sum_map_sub, List.length_map, key, sub_self, zero_div]

theorem covEntry_spec (centered : List Vec3) (f g : Vec3 → ℚ)
    (hf : rowMean (centered.map f) = 0) (hg : rowMean (centered.map g) = 0) :
    covEntry (centered.map f) (centered.map g) = covSpecEntry centered f g := by
  simp only [covEntry, hf, hg, sub_zero, List.map_id']
  rw [List.zip_map']
  simp only [List.map_map, covSpecEntry, List.length_map]
  rfl

theorem centered_map_x (coords : List Vec3) :
    (centeredOf coords).map Vec3.x =
      (coords.map Vec3.x).map (fun a => a - rowMean (coords.map Vec3.x)) := by
  simp only [centeredOf, List.map_map]
  rfl

theorem centered_map_y (coords : List Vec3) :
    (centeredOf coords).map Vec3.y =
      (coords.map Vec3.y).map (fun a => a - rowMean (coords.map Vec3.y)) := by
  simp only [centeredOf, List.map_map]
  rfl

theorem centered_map_z (coords : List Vec3) :
    (centeredOf coords).map Vec3.z =
      (coords.map Vec3.z).map (fun a => a - rowMean (coords.map Vec3.z)) := by
  simp only [centeredOf, List.map_map]
  rfl

theorem rowMean_centered_x (coords : List Vec3) (h : coords ≠ []) :
    rowMean ((centeredOf coords).map Vec3.x) = 0 := by
  rw [centered_map_x]
  apply rowMean_center
  simpa using h

theorem rowMean_centered_y (coords : List Vec3) (h : coords ≠ []) :
    rowMean ((centeredOf coords).map Vec3.y) = 0 := by
  rw [centered_map_y]
  apply rowMean_center
  simpa using h

theorem rowMean_centered_z (coords : List Vec3) (h : coords ≠ []) :
    rowMean ((centeredOf coords).map Vec3.z) = 0 := by
  rw [centered_map_z]
  apply rowMean_center
  simpa using h

theorem np_cov_eq_covSpec (coords : List Vec3) (h : coords ≠ []) :
    np_cov (centeredOf coords) = covSpec (centeredOf coords) := by
  have hx := rowMean_centered_x coords h
  have hy := rowMean_centered_y coords h
  have hz := rowMean_centered_z coords h
  simp only [np_cov, covSpec]
  rw [covEntry_spec _ _ _ hx hx, covEntry_spec _ _ _ hy hx, covEntry_spec _ _ _ hz hx,
      covEntry_spec _ _ _ hx hy, covEntry_spec _ _ _ hy hy, covEntry_spec _ _ _ hz hy,
      covEntry_spec _ _ _ hx hz, covEntry_spec _ _ _ hy hz, covEntry_spec _ _ _ hz hz]

theorem meanPoint_eq_centroidSpec (coords : List Vec3) :
    meanPoint coords = centroidSpec coords := by
  simp [meanPoint, centroidSpec, rowMean, List.length_map]

theorem getD_map_snd (l : List (ℚ × Vec3)) (i : ℕ) :
    (l.map Prod.snd).getD i vzero = (l.getD i (0, vzero)).2 := by
  induction l generalizing i with
  | nil => simp [List.getD]
  | cons p rest ih =>
    cases i with
    | zero => simp [List.getD]
    | succ j =>
      simp only [List.map_cons, List.getD_cons_succ]
      exact ih j

theorem getD_map_fst (l : List (ℚ × Vec3)) (i : ℕ) :
    (l.map Prod.fst).getD i 0 = (l.getD i (0, vzero)).1 := by
  induction l generalizing i with
  | nil => simp [List.getD]
  | cons p rest ih =>
    cases i with
    | zero => simp [List.getD]
    | succ j =>
      simp only [List.map_cons, List.getD_cons_succ]
      exact ih j

theorem obbOf_spec (centered : List Vec3) (center : Vec3) (nAtoms : ℕ)
    (vals : Vec3) (vecs : Mat3) :
    obbOf centered center nAtoms vals vecs =
      (let sorted := sortPairsDesc [(vals.x, vecs.c0), (vals.y, vecs.c1), (vals.z, vecs.c2)]
       let axes := sorted.map Prod.snd
       let d0 := extentAlong centered (axes.getD 0 vzero)
       let d1 := extentAlong centered (axes.getD 1 vzero)
       let d2 := extentAlong centered (axes.getD 2 vzero)
       (d0 * d1 * d2,
        { center := center
          length := d0
          width := d1
          height := d2
          principal_axes := ⟨axes.getD 0 vzero, axes.getD 1 vzero, axes.getD 2 vzero⟩
          eigenvalues := ⟨(sorted.map Prod.fst).getD 0 0, (sorted.map Prod.fst).getD 1 0,
                          (sorted.map Prod.fst).getD 2 0⟩
          num_atoms := nAtoms })) := by
  simp only [obbOf, extentAlong, getD_map_snd, getD_map_fst, List.map_map]
  rfl

/-- Claim C2: for every point cloud with at least 2 points, the calculator
computes exactly what the spec describes: the component-wise mean centroid,
points centered by subtracting it, the covariance matrix with entries
(1/(N-1)) * sum of products of centered components, dimensions as max minus
min of the projections onto the eigenvalue-descending-sorted eigenvector
basis, and the oriented volume as the product of the three dimensions; the
eigenpair sort is indeed descending and a permutation of the input pairs. -/
theorem c2_compute_obb_matches_spec (eigh : Mat3 → Except String (Vec3 × Mat3))
    (coords : List Vec3) (prs : List (ℚ × Vec3)) (h : 2 ≤ coords.length) :
    calculate_oriented_cuboid_volume eigh coords = calcSpec eigh coords ∧
    ((sortPairsDesc prs).map Prod.fst).Pairwise (fun a b => b ≤ a) ∧
    List.Perm (sortPairsDesc prs) prs := by
  refine ⟨?_, ?_, ?_⟩
  · have hne : coords ≠ [] := by
      intro h0
      rw [h0] at h
      simp at h
    have hcov := np_cov_eq_covSpec coords hne
    simp only [centeredOf] at hcov
    simp only [calculate_oriented_cuboid_volume, calcSpec, ← meanPoint_eq_centroidSpec, hcov]
    cases heq : eigh (covSpec (coords.map (fun p => p.sub (meanPoint coords)))) with
    | error e => rfl
    | ok pr =>
      obtain ⟨vals, vecs⟩ := pr
      exact congrArg Except.ok (obbOf_spec _ _ _ _ _)
  · have htot : ∀ a b : ℚ × Vec3, pairLe a b = true ∨ pairLe b a = true := by
      intro a b
      simp only [pairLe, decide_eq_true_eq]
      exact le_total a.1 b.1
    have htr : ∀ a b c : ℚ × Vec3, pairLe a b = true → pairLe b c = true → pairLe a c = true := by
      intro a b c hab hbc
      simp only [pairLe, decide_eq_true_eq] at hab hbc ⊢
      exact le_trans hab hbc
    have hp := sortBy_pairwise pairLe htot htr prs
    rw [List.pairwise_map, sortPairsDesc, List.pairwise_reverse]
    exact List.Pairwise.imp (fun hab => of_decide_eq_true hab) hp
  · exact (List.reverse_perm _).trans (sortBy_perm pairLe prs)

/-- Witness for claim C2 at the two-point demo cloud and the eigensolver
oracle for its covariance matrix. -/
theorem c2_compute_obb_matches_spec_witness :
    2 ≤ demoPts.length ∧
    (calculate_oriented_cuboid_volume eighDemo demoPts = calcSpec eighDemo demoPts ∧
     ((sortPairsDesc [((2 : ℚ), vzero), ((5 : ℚ), vzero)]).map Prod.fst).Pairwise
       (fun a b => b ≤ a) ∧
     List.Perm (sortPairsDesc [((2 : ℚ), vzero), ((5 : ℚ), vzero)])
       [((2 : ℚ), vzero), ((5 : ℚ), vzero)]) :=
  ⟨by decide,
   c2_compute_obb_matches_spec eighDemo demoPts [((2 : ℚ), vzero), ((5 : ℚ), vzero)] (by decide)⟩

/-- Claim C3: for every info record the calculator produces, the enclosed
cube volume is side cubed, where side is the maximum of the three box
dimensions: it bounds each dimension from above and equals one of them. -/
theorem c3_cube_volume_is_max_side_cubed (eigh : Mat3 → Except String (Vec3 × Mat3))
    (coords : List Vec3) (v : ℚ) (info : Info)
    (h : calculate_oriented_cuboid_volume eigh coords = .ok (v, info)) :
    calculate_enclosed_cube_volume info = (max info.length (max info.width info.height)) ^ 3 ∧
    info.length ≤ max info.length (max info.width info.height) ∧
    info.width ≤ max info.length (max info.width info.height) ∧
    info.height ≤ max info.length (max info.width info.height) ∧
    (max info.length (max info.width info.height) = info.length ∨
     max info.length (max info.width info.height) = info.width ∨
     max info.length (max info.width info.height) = info.height) := by
  refine ⟨?_, le_max_left _ _, ?_, ?_, ?_⟩
  · simp [calculate_enclosed_cube_volume, max_assoc]
  · exact le_trans (le_max_left _ _) (le_max_right _ _)
  · exact le_trans (le_max_right _ _) (le_max_right _ _)
  · rcases max_choice info.length (max info.width info.height) with h1 | h1
    · exact Or.inl h1
    · rcases max_choice info.width info.height with h2 | h2
      · exact Or.inr (Or.inl (h1.trans h2))
      · exact Or.inr (Or.inr (h1.trans h2))

/-- Witness for claim C3 at the two-point demo computation. -/
theorem c3_cube_volume_is_max_side_cubed_witness :
    calculate_oriented_cuboid_volume eighDemo demoPts = .ok (0, infoDemo) ∧
    calculate_enclosed_cube_volume infoDemo =
      (max infoDemo.length (max infoDemo.width infoDemo.height)) ^ 3 :=
  ⟨by decide,
   (c3_cube_volume_is_max_side_cubed eighDemo demoPts 0 infoDemo (by decide)).1⟩

/-- Claim C4 counterexample: the code contains no degeneracy validation at
all; on the two-point cloud demoPts (fewer than 3 points) the calculator
returns a normal result, oriented volume 0 with its info record, instead of
raising a DegenerateGeometryError. -/
theorem c4_counterexample_two_points_return_result :
    calculate_oriented_cuboid_volume eighDemo demoPts = .ok (0, infoDemo) := by decide

/-- Claim C4 amended: for a 2-point input the calculator raises nothing of
its own: whenever the eigensolver succeeds on the covariance matrix, a
normal result is returned (no DegenerateGeometryError exists in the code). -/
theorem c4_amended_two_points_return_result (p q : Vec3)
    (eigh : Mat3 → Except String (Vec3 × Mat3))
    (h : (eigh (covOfPoints [p, q])).isOk = true) :
    (calculate_oriented_cuboid_volume eigh [p, q]).isOk = true := by
  cases heq : eigh (covOfPoints [p, q]) with
  | error e =>
    rw [heq] at h
    simp [Except.isOk, Except.toBool] at h
  | ok pr =>
    obtain ⟨vals, vecs⟩ := pr
    simp only [calculate_oriented_cuboid_volume, covOfPoints, centeredOf] at heq ⊢
    rw [heq]
    rfl

/-- Witness for the amended claim C4 at the demo two-point cloud. -/
theorem c4_amended_two_points_return_result_witness :
    (eighDemo (covOfPoints [⟨2, 0, 0⟩, ⟨0, 0, 0⟩])).isOk = true ∧
    (calculate_oriented_cuboid_volume eighDemo [⟨2, 0, 0⟩, ⟨0, 0, 0⟩]).isOk = true :=
  ⟨by decide, c4_amended_two_points_return_result ⟨2, 0, 0⟩ ⟨0, 0, 0⟩ eighDemo (by decide)⟩

theorem rowMean_const (c : ℚ) (l : List ℚ) (h0 : l ≠ []) (h : ∀ x ∈ l, x = c) :
    rowMean l = c := by
  have hn : (l.length : ℚ) ≠ 0 := by
    have hl : l.length ≠ 0 := fun hh => h0 (List.length_eq_zero.mp hh)
    exact_mod_cast hl
  rw [rowMean, sum_const_list c l h, mul_div_cancel_left₀ _ hn]

theorem listMax_replicate0 (n : ℕ) (h : n ≠ 0) :
    listMax (List.replicate n (0 : ℚ)) = 0 := by
  apply listMax_const 0 _ _ (fun x hx => List.eq_of_mem_replicate hx)
  intro h0
  have := congrArg List.length h0
  simp at this
  exact h this

theorem listMin_replicate0 (n : ℕ) (h : n ≠ 0) :
    listMin (List.replicate n (0 : ℚ)) = 0 := by
  apply listMin_const 0 _ _ (fun x hx => List.eq_of_mem_replicate hx)
  intro h0
  have := congrArg List.length h0
  simp at this
  exact h this

theorem obbOf_zero_cloud (centered : List Vec3) (center : Vec3) (n : ℕ)
    (vals : Vec3) (vecs : Mat3) (hne : centered ≠ [])
    (hz : ∀ w ∈ centered, w = vzero) :
    (obbOf centered center n vals vecs).1 = 0 ∧
    (obbOf centered center n vals vecs).2.length = 0 ∧
    (obbOf centered center n vals vecs).2.width = 0 ∧
    (obbOf centered center n vals vecs).2.height = 0 := by
  have hlen : centered.length ≠ 0 := fun h0 => hne (List.length_eq_zero.mp h0)
  have hrepl : ∀ a0 a1 a2 : Vec3,
      centered.map (fun p => (⟨dot p a0, dot p a1, dot p a2⟩ : Vec3)) =
        List.replicate centered.length vzero := by
    intro a0 a1 a2
    rw [List.eq_replicate_iff]
    refine ⟨by simp, ?_⟩
    intro b hb
    obtain ⟨p, hp, rfl⟩ := List.mem_map.mp hb
    rw [hz p hp]
    simp [dot, vzero]
  simp only [obbOf, Vec3.sub]
  rw [hrepl]
  have hmx : List.map Vec3.x (List.replicate centered.length vzero) =
      List.replicate centered.length (0 : ℚ) := by
    simp [List.map_replicate, vzero]
  have hmy : List.map Vec3.y (List.replicate centered.length vzero) =
      List.replicate centered.length (0 : ℚ) := by
    simp [List.map_replicate, vzero]
  have hmz : List.map Vec3.z (List.replicate centered.length vzero) =
      List.replicate centered.length (0 : ℚ) := by
    simp [List.map_replicate, vzero]
  rw [hmx, hmy, hmz, listMax_replicate0 _ hlen, listMin_replicate0 _ hlen]
  norm_num

/-- Claim C5: for every non-empty point cloud whose points are all equal,
a completed computation returns oriented volume 0 and cube volume 0. -/
theorem c5_identical_points_zero_volumes (eigh : Mat3 → Except String (Vec3 × Mat3))
    (coords : List Vec3) (p : Vec3) (v : ℚ) (info : Info)
    (h0 : coords ≠ []) (hall : ∀ q ∈ coords, q = p)
    (h : calculate_oriented_cuboid_volume eigh coords = .ok (v, info)) :
    v = 0 ∧ calculate_enclosed_cube_volume info = 0 := by
  have hne1 : coords.map Vec3.x ≠ [] := by simpa using h0
  have hmp : meanPoint coords = p := by
    have hx : ∀ a ∈ coords.map Vec3.x, a = p.x := by
      intro a ha
      obtain ⟨q, hq, rfl⟩ := List.mem_map.mp ha
      rw [hall q hq]
    have hy : ∀ a ∈ coords.map Vec3.y, a = p.y := by
      intro a ha
      obtain ⟨q, hq, rfl⟩ := List.mem_map.mp ha
      rw [hall q hq]
    have hzc : ∀ a ∈ coords.map Vec3.z, a = p.z := by
      intro a ha
      obtain ⟨q, hq, rfl⟩ := List.mem_map.mp ha
      rw [hall q hq]
    have hne2 : coords.map Vec3.y ≠ [] := by simpa using h0
    have hne3 : coords.map Vec3.z ≠ [] := by simpa using h0
    simp only [meanPoint, rowMean_const p.x _ hne1 hx, rowMean_const p.y _ hne2 hy,
      rowMean_const p.z _ hne3 hzc]
  have hz : ∀ w ∈ coords.map (fun r => r.sub (meanPoint coords)), w = vzero := by
    intro w hw
    obtain ⟨q, hq, rfl⟩ := List.mem_map.mp hw
    rw [hall q hq, hmp]
    simp [Vec3.sub, vzero]
  have hne4 : coords.map (fun r => r.sub (meanPoint coords)) ≠ [] := by simpa using h0
  simp only [calculate_oriented_cuboid_volume] at h
  cases heq : eigh (np_cov (coords.map (fun r => r.sub (meanPoint coords)))) with
  | error e =>
    rw [heq] at h
    simp at h
  | ok pr =>
    obtain ⟨vals, vecs⟩ := pr
    rw [heq] at h
    simp only [Except.ok.injEq, Prod.ext_iff] at h
    obtain ⟨hv, hinfo⟩ := h
    subst hv
    subst hinfo
    have hob := obbOf_zero_cloud _ (meanPoint coords) coords.length vals vecs hne4 hz
    obtain ⟨h1, hL, hW, hH⟩ := hob
    refine ⟨h1, ?_⟩
    simp [calculate_enclosed_cube_volume, hL, hW, hH]

/-- Witness for claim C5 on two copies of the point (1,2,3). -/
theorem c5_identical_points_zero_volumes_witness :
    ([(⟨1, 2, 3⟩ : Vec3), ⟨1, 2, 3⟩] ≠ []) ∧
    (∀ q ∈ [(⟨1, 2, 3⟩ : Vec3), ⟨1, 2, 3⟩], q = (⟨1, 2, 3⟩ : Vec3)) ∧
    calculate_oriented_cuboid_volume eighZ [⟨1, 2, 3⟩, ⟨1, 2, 3⟩] = .ok (0, infoC5) ∧
    ((0 : ℚ) = 0 ∧ calculate_enclosed_cube_volume infoC5 = 0) :=
  ⟨by decide, by decide, by decide,
   c5_identical_points_zero_volumes eighZ [⟨1, 2, 3⟩, ⟨1, 2, 3⟩] ⟨1, 2, 3⟩ 0 infoC5
     (by decide) (by decide) (by decide)⟩

theorem rowMean_map_add (l : List ℚ) (c : ℚ) (h : l ≠ []) :
    rowMean (l.map (fun a => a + c)) = rowMean l + c := by
  have hn : (l.length : ℚ) ≠ 0 := by
    have h0 : l.length ≠ 0 := fun h0 => h (List.length_eq_zero.mp h0)
    exact_mod_cast h0
  simp only [rowMean, sum_map_add, List.length_map]
  rw [add_div, mul_div_cancel_left₀ _ hn]

theorem centered_translate (coords : List Vec3) (t : Vec3) :
    (coords.map (fun p => p.addv t)).map
        (fun p => p.sub (meanPoint (coords.map (fun p2 => p2.addv t)))) =
      coords.map (fun p => p.sub (meanPoint coords)) := by
  by_cases hc : coords = []
  · subst hc; rfl
  · have hmean : meanPoint (coords.map (fun p => p.addv t)) = (meanPoint coords).addv t := by
      have hx : (coords.map (fun p => p.addv t)).map Vec3.x =
          (coords.map Vec3.x).map (fun a => a + t.x) := by
        simp only [List.map_map]; rfl
      have hy : (coords.map (fun p => p.addv t)).map Vec3.y =
          (coords.map Vec3.y).map (fun a => a + t.y) := by
        simp only [List.map_map]; rfl
      have hz : (coords.map (fun p => p.addv t)).map Vec3.z =
          (coords.map Vec3.z).map (fun a => a + t.z) := by
        simp only [List.map_map]; rfl
      have e1 : rowMean ((coords.map (fun p => p.addv t)).map Vec3.x) =
          rowMean (coords.map Vec3.x) + t.x := by
        rw [hx]
        exact rowMean_map_add _ _ (by simpa using hc)
      have e2 : rowMean ((coords.map (fun p => p.addv t)).map Vec3.y) =
          rowMean (coords.map Vec3.y) + t.y := by
        rw [hy]
        exact rowMean_map_add _ _ (by simpa using hc)
      have e3 : rowMean ((coords.map (fun p => p.addv t)).map Vec3.z) =
          rowMean (coords.map Vec3.z) + t.z := by
        rw [hz]
        exact rowMean_map_add _ _ (by simpa using hc)
      show Vec3.mk (rowMean ((coords.map (fun p => p.addv t)).map Vec3.x))
          (rowMean ((coords.map (fun p => p.addv t)).map Vec3.y))
          (rowMean ((coords.map (fun p => p.addv t)).map Vec3.z)) =
        Vec3.mk (rowMean (coords.map Vec3.x) + t.x) (rowMean (coords.map Vec3.y) + t.y)
          (rowMean (coords.map Vec3.z) + t.z)
      rw [e1, e2, e3]
    rw [hmean, List.map_map]
    apply List.map_congr_left
    intro a ha
    show (a.addv t).sub ((meanPoint coords).addv t) = a.sub (meanPoint coords)
    simp only [Vec3.addv, Vec3.sub, Vec3.mk.injEq]
    refine ⟨by ring, by ring, by ring⟩

/-- Claim C6: translating every point of a cloud by a constant vector t
leaves the oriented volume and the cube volume unchanged (outcome compared
through the same eigensolver oracle, error or result alike). -/
theorem c6_translation_invariance (eigh : Mat3 → Except String (Vec3 × Mat3))
    (t : Vec3) (coords : List Vec3) :
    (calculate_oriented_cuboid_volume eigh (coords.map (fun p => p.addv t))).map
        (fun r => (r.1, calculate_enclosed_cube_volume r.2)) =
      (calculate_oriented_cuboid_volume eigh coords).map
        (fun r => (r.1, calculate_enclosed_cube_volume r.2)) := by
  simp only [calculate_oriented_cuboid_volume]
  rw [centered_translate coords t]
  cases heq : eigh (np_cov (coords.map (fun p => p.sub (meanPoint coords)))) with
  | error e => rfl
  | ok pr =>
    obtain ⟨vals, vecs⟩ := pr
    rw [List.length_map]
    rfl

theorem obbOf_dims_nonneg (centered : List Vec3) (center : Vec3) (n : ℕ)
    (vals : Vec3) (vecs : Mat3) (hne : centered ≠ []) :
    0 ≤ (obbOf centered center n vals vecs).2.length ∧
    0 ≤ (obbOf centered center n vals vecs).2.width ∧
    0 ≤ (obbOf centered center n vals vecs).2.height ∧
    0 ≤ (obbOf centered center n vals vecs).1 := by
  have gen : ∀ L : List ℚ, L ≠ [] → 0 ≤ listMax L - listMin L := by
    intro L hL
    exact sub_nonneg.mpr (listMin_le_listMax L hL)
  simp only [obbOf, Vec3.sub]
  refine ⟨gen _ (by simpa using hne), gen _ (by simpa using hne), gen _ (by simpa using hne), ?_⟩
  exact mul_nonneg (mul_nonneg (gen _ (by simpa using hne)) (gen _ (by simpa using hne)))
    (gen _ (by simpa using hne))

/-- Claim C9: for every non-empty cloud whose computation completes, each
of the three dimensions is non-negative (each is a max minus a min of the
same projected coordinates) and hence the oriented volume is non-negative. -/
theorem c9_dims_and_volume_nonneg (eigh : Mat3 → Except String (Vec3 × Mat3))
    (coords : List Vec3) (v : ℚ) (info : Info) (h0 : coords ≠ [])
    (h : calculate_oriented_cuboid_volume eigh coords = .ok (v, info)) :
    0 ≤ info.length ∧ 0 ≤ info.width ∧ 0 ≤ info.height ∧ 0 ≤ v := by
  have hne4 : coords.map (fun r => r.sub (meanPoint coords)) ≠ [] := by simpa using h0
  simp only [calculate_oriented_cuboid_volume] at h
  cases heq : eigh (np_cov (coords.map (fun r => r.sub (meanPoint coords)))) with
  | error e =>
    rw [heq] at h
    simp at h
  | ok pr =>
    obtain ⟨vals, vecs⟩ := pr
    rw [heq] at h
    simp only [Except.ok.injEq, Prod.ext_iff] at h
    obtain ⟨hv, hinfo⟩ := h
    subst hv
    subst hinfo
    obtain ⟨hL, hW, hH, hV⟩ :=
      obbOf_dims_nonneg _ (meanPoint coords) coords.length vals vecs hne4
    exact ⟨hL, hW, hH, hV⟩

/-- Witness for claim C9 at the two-point demo computation. -/
theorem c9_dims_and_volume_nonneg_witness :
    demoPts ≠ [] ∧
    (0 ≤ infoDemo.length ∧ 0 ≤ infoDemo.width ∧ 0 ≤ infoDemo.height ∧ (0 : ℚ) ≤ 0) :=
  ⟨by decide,
   c9_dims_and_volume_nonneg eighDemo demoPts 0 infoDemo (by decide) (by decide)⟩

/-! ## CSV writer theorems -/

/-- Claim C7 amended: main writes the header line that actually carries the
unit suffixes (Å³ and Å), then exactly one row per results entry, rows
sorted by filename ascending; a row joins filename, the two volumes and the
three dimensions formatted at two decimals, and the atom count as a plain
integer. -/
theorem c7_amended_csv_shape (rs : List (String × Entry)) (p : String × Entry) :
    write_csv rs = csv_header :: (sortItems rs).map csv_row ∧
    csv_row p = joinComma [p.1, format2 p.2.1, format2 p.2.2.2, toString p.2.2.1.num_atoms,
      format2 p.2.2.1.length, format2 p.2.2.1.width, format2 p.2.2.1.height] ∧
    (sortItems rs).Pairwise (fun a b => a.1 ≤ b.1) ∧
    List.Perm (sortItems rs) rs ∧
    (write_csv rs).length = rs.length + 1 := by
  refine ⟨rfl, ?_, ?_, ?_, ?_⟩
  · simp [csv_row, joinComma, String.append_assoc]
  · have htot : ∀ a b : String × Entry, itemLe a b = true ∨ itemLe b a = true := by
      intro a b
      simp only [itemLe, decide_eq_true_eq]
      exact le_total a.1 b.1
    have htr : ∀ a b c : String × Entry,
        itemLe a b = true → itemLe b c = true → itemLe a c = true := by
      intro a b c hab hbc
      simp only [itemLe, decide_eq_true_eq] at hab hbc ⊢
      exact le_trans hab hbc
    exact List.Pairwise.imp (fun hab => of_decide_eq_true hab)
      (sortBy_pairwise itemLe htot htr rs)
  · exact sortBy_perm itemLe rs
  · simp [write_csv, sortItems, (sortBy_perm itemLe rs).length_eq]

/-- Claim C7 counterexample: the first line of the CSV the driver writes is
not the bare header the claim states; the real header carries unit
suffixes. -/
theorem c7_counterexample_header_mismatch :
    (write_csv [("mol_last_geom.txt", demoEntry)]).head? ≠
      some "Filename,Cuboid_Volume,Cube_Volume,Num_Atoms,Length,Width,Height" := by decide

/-! ## Driver theorems -/

/-- Claim C8: a file whose parse yields zero points, or whose per-file
computation fails (the driver's except catches the exception), contributes
nothing to the results dict: the batch result equals the result of the list
with that file removed, so the remaining files are processed unchanged. -/
theorem c8_bad_file_excluded_batch_continues (pf : List Char → Option ℚ)
    (eigh : Mat3 → Except String (Vec3 × Mat3)) (pathExists : String → Bool)
    (readLines : String → List (List Char)) (f : String) (l1 l2 : List String)
    (h : parse_geometry_file pf (readLines f) = [] ∨
         (calculate_oriented_cuboid_volume eigh
           (parse_geometry_file pf (readLines f))).isOk = false) :
    process_files pf eigh pathExists readLines (l1 ++ f :: l2) =
      process_files pf eigh pathExists readLines (l1 ++ l2) := by
  have hstep : ∀ d, processOne pf eigh pathExists readLines d f = d := by
    intro d
    unfold processOne fileEntry
    cases hex : pathExists f
    · simp
    · rcases h with h | h
      · simp [hex, h]
      · by_cases hlen : (parse_geometry_file pf (readLines f)).length = 0
        · simp [hex, hlen]
        · cases hc : calculate_oriented_cuboid_volume eigh
              (parse_geometry_file pf (readLines f)) with
          | error e => simp [hex, hlen, hc]
          | ok pr =>
            rw [hc] at h
            simp [Except.isOk, Except.toBool] at h
  unfold process_files
  rw [List.foldl_append, List.foldl_cons, hstep, ← List.foldl_append]

/-- Witness for claim C8: the no-delimiter demo file parses to zero points
and drops out of the batch between two other files. -/
theorem c8_bad_file_excluded_batch_continues_witness :
    (parse_geometry_file pfDemo (readDemo "empty_last_geom.txt") = [] ∨
     (calculate_oriented_cuboid_volume eighDemo
        (parse_geometry_file pfDemo (readDemo "empty_last_geom.txt"))).isOk = false) ∧
    process_files pfDemo eighDemo allExist readDemo
        (["d1/a_last_geom.txt"] ++ "empty_last_geom.txt" :: ["d2/b_last_geom.txt"]) =
      process_files pfDemo eighDemo allExist readDemo
        (["d1/a_last_geom.txt"] ++ ["d2/b_last_geom.txt"]) :=
  ⟨Or.inl (by decide),
   c8_bad_file_excluded_batch_continues pfDemo eighDemo allExist readDemo
     "empty_last_geom.txt" ["d1/a_last_geom.txt"] ["d2/b_last_geom.txt"] (Or.inl (by decide))⟩

/-! ## Dictionary lemmas for the results mapping -/

theorem any_countKey (d : List (String × Entry)) (k : String)
    (h : d.any (fun q => q.1 == k) = true) : 0 < countKey d k := by
  rw [countKey, List.countP_pos_iff]
  obtain ⟨a, ha, hpa⟩ := List.any_eq_true.mp h
  exact ⟨a, ha, hpa⟩

theorem countKey_eq_zero (d : List (String × Entry)) (k : String)
    (h : d.any (fun q => q.1 == k) = false) : countKey d k = 0 := by
  rw [countKey, List.countP_eq_zero]
  intro a ha
  exact List.any_eq_false.mp h a ha

theorem find?_none_append (l1 l2 : List (String × Entry)) (p : (String × Entry) → Bool)
    (h : ∀ a ∈ l1, p a = false) : (l1 ++ l2).find? p = l2.find? p := by
  induction l1 with
  | nil => rfl
  | cons a rest ih =>
    have ha := h a (List.mem_cons_self a rest)
    simp only [List.cons_append, List.find?, ha]
    exact ih (fun b hb => h b (List.mem_cons_of_mem a hb))

theorem find?_map_replace (d : List (String × Entry)) (k : String) (v : Entry)
    (hmem : d.any (fun q => q.1 == k) = true) :
    (d.map (fun q => if q.1 == k then (k, v) else q)).find? (fun q => q.1 == k) =
      some (k, v) := by
  induction d with
  | nil => simp at hmem
  | cons q rest ih =>
    by_cases hq : (q.1 == k) = true
    · simp [List.find?, hq]
    · have hrest : rest.any (fun r => r.1 == k) = true := by
        rcases List.any_eq_true.mp hmem with ⟨a, ha, hpa⟩
        rcases List.mem_cons.mp ha with rfl | ha2
        · exact absurd hpa hq
        · exact List.any_eq_true.mpr ⟨a, ha2, hpa⟩
      have hqf : (q.1 == k) = false := by
        cases hb : (q.1 == k)
        · rfl
        · exact absurd hb hq
      simp only [List.map_cons, if_neg hq]
      have hstep : List.find? (fun r : String × Entry => r.1 == k)
          (q :: List.map (fun r => if r.1 == k then (k, v) else r) rest) =
          List.find? (fun r : String × Entry => r.1 == k)
            (List.map (fun r => if r.1 == k then (k, v) else r) rest) := by
        simp only [List.find?, hqf]
      rw [hstep]
      exact ih hrest

theorem dictGet_dictInsert (d : List (String × Entry)) (k : String) (v : Entry) :
    dictGet (dictInsert d k v) k = some v := by
  unfold dictInsert dictGet
  by_cases hmem : d.any (fun q => q.1 == k) = true
  · rw [if_pos hmem, find?_map_replace d k v hmem]
    rfl
  · have hmemf : d.any (fun q => q.1 == k) = false := by
      cases hb : d.any (fun q => q.1 == k)
      · rfl
      · exact absurd hb hmem
    have hall : ∀ a ∈ d, (fun q : String × Entry => q.1 == k) a = false := by
      intro a ha
      have hna := List.any_eq_false.mp hmemf a ha
      cases hb : (a.1 == k)
      · exact hb
      · exact absurd hb hna
    rw [if_neg hmem, find?_none_append _ _ _ hall]
    simp [List.find?]

theorem countKey_map_replace (d : List (String × Entry)) (k k2 : String) (v : Entry) :
    countKey (d.map (fun q => if q.1 == k then (k, v) else q)) k2 = countKey d k2 := by
  unfold countKey
  rw [List.countP_map]
  apply List.countP_congr
  intro q _
  by_cases hq : (q.1 == k) = true
  · have hqk : q.1 = k := beq_iff_eq.mp hq
    simp [Function.comp, hq, hqk]
  · simp [Function.comp, hq]

theorem countKey_dictInsert (d : List (String × Entry)) (k : String) (v : Entry)
    (hle : countKey d k ≤ 1) : countKey (dictInsert d k v) k = 1 := by
  unfold dictInsert
  by_cases hmem : d.any (fun q => q.1 == k) = true
  · rw [if_pos hmem, countKey_map_replace]
    have hpos := any_countKey d k hmem
    omega
  · have hmemf : d.any (fun q => q.1 == k) = false := by
      cases hb : d.any (fun q => q.1 == k)
      · rfl
      · exact absurd hb hmem
    rw [if_neg hmem]
    unfold countKey
    rw [List.countP_append]
    have h0 := countKey_eq_zero d k hmemf
    unfold countKey at h0
    rw [h0]
    simp

theorem countKey_dictInsert_le (d : List (String × Entry)) (k : String) (v : Entry)
    (hinv : ∀ k2, countKey d k2 ≤ 1) : ∀ k2, countKey (dictInsert d k v) k2 ≤ 1 := by
  intro k2
  unfold dictInsert
  by_cases hmem : d.any (fun q => q.1 == k) = true
  · rw [if_pos hmem, countKey_map_replace]
    exact hinv k2
  · have hmemf : d.any (fun q => q.1 == k) = false := by
      cases hb : d.any (fun q => q.1 == k)
      · rfl
      · exact absurd hb hmem
    rw [if_neg hmem]
    unfold countKey
    rw [List.countP_append]
    by_cases hk : (k == k2) = true
    · have hkk : k = k2 := beq_iff_eq.mp hk
      subst hkk
      have h0 := countKey_eq_zero d k hmemf
      unfold countKey at h0
      rw [h0]
      simp
    · have hkf : (k == k2) = false := by
        cases hb : (k == k2)
        · rfl
        · exact absurd hb hk
      simp only [List.countP_cons, List.countP_nil, hkf]
      simpa using hinv k2

theorem processOne_some (pf : List Char → Option ℚ)
    (eigh : Mat3 → Except String (Vec3 × Mat3)) (pathExists : String → Bool)
    (readLines : String → List (List Char)) (d : List (String × Entry)) (f : String)
    (e : Entry) (h : fileEntry pf eigh pathExists readLines f = some e) :
    processOne pf eigh pathExists readLines d f = dictInsert d (basename f) e := by
  unfold processOne
  rw [h]

theorem process_files_countKey_le (pf : List Char → Option ℚ)
    (eigh : Mat3 → Except String (Vec3 × Mat3)) (pathExists : String → Bool)
    (readLines : String → List (List Char)) (l : List String) :
    ∀ k, countKey (process_files pf eigh pathExists readLines l) k ≤ 1 := by
  unfold process_files
  suffices hgen : ∀ (l2 : List String) (d : List (String × Entry)),
      (∀ k, countKey d k ≤ 1) →
      ∀ k, countKey (l2.foldl (processOne pf eigh pathExists readLines) d) k ≤ 1 by
    exact hgen l [] (fun k => by simp [countKey])
  intro l2
  induction l2 with
  | nil =>
    intro d hd
    simpa using hd
  | cons f rest ih =>
    intro d hd
    simp only [List.foldl_cons]
    apply ih
    unfold processOne
    cases fileEntry pf eigh pathExists readLines f with
    | none => exact hd
    | some e => exact countKey_dictInsert_le d (basename f) e hd

/-- Claim C10: the results mapping is keyed by basename, so when two
distinct paths share a basename and both process successfully (the second
one later), the mapping holds exactly one entry for that basename, holding
the later file's result; the earlier result is no longer retrievable unless
it equals the later one. -/
theorem c10_basename_collision_last_wins (pf : List Char → Option ℚ)
    (eigh : Mat3 → Except String (Vec3 × Mat3)) (pathExists : String → Bool)
    (readLines : String → List (List Char)) (l1 l2 : List String) (f1 f2 : String)
    (e1 e2 : Entry) (hne : f1 ≠ f2) (hbn : basename f1 = basename f2)
    (h1 : fileEntry pf eigh pathExists readLines f1 = some e1)
    (h2 : fileEntry pf eigh pathExists readLines f2 = some e2) :
    dictGet (process_files pf eigh pathExists readLines (l1 ++ f1 :: (l2 ++ [f2])))
        (basename f2) = some e2 ∧
    countKey (process_files pf eigh pathExists readLines (l1 ++ f1 :: (l2 ++ [f2])))
        (basename f2) = 1 ∧
    (dictGet (process_files pf eigh pathExists readLines (l1 ++ f1 :: (l2 ++ [f2])))
        (basename f2) = some e1 → e1 = e2) := by
  have hres : process_files pf eigh pathExists readLines (l1 ++ f1 :: (l2 ++ [f2])) =
      dictInsert (process_files pf eigh pathExists readLines (l1 ++ f1 :: l2))
        (basename f2) e2 := by
    have hsplit : l1 ++ f1 :: (l2 ++ [f2]) = (l1 ++ f1 :: l2) ++ [f2] := by simp
    rw [hsplit]
    unfold process_files
    rw [List.foldl_append]
    simp only [List.foldl_cons, List.foldl_nil]
    exact processOne_some pf eigh pathExists readLines _ f2 e2 h2
  rw [hres]
  refine ⟨dictGet_dictInsert _ _ _, ?_, ?_⟩
  · exact countKey_dictInsert _ _ _
      (process_files_countKey_le pf eigh pathExists readLines (l1 ++ f1 :: l2) (basename f2))
  · intro hE
    rw [dictGet_dictInsert] at hE
    exact (Option.some.inj hE).symm

/-- Witness for claim C10: two distinct demo paths share the basename, both
succeed with the demo entry, and the mapping holds it once. -/
theorem c10_basename_collision_last_wins_witness :
    ("d1/a_last_geom.txt" : String) ≠ "d2/a_last_geom.txt" ∧
    basename "d1/a_last_geom.txt" = basename "d2/a_last_geom.txt" ∧
    fileEntry pfDemo eighDemo allExist readDemo "d1/a_last_geom.txt" = some demoEntry ∧
    fileEntry pfDemo eighDemo allExist readDemo "d2/a_last_geom.txt" = some demoEntry ∧
    (dictGet (process_files pfDemo eighDemo allExist readDemo
        ([] ++ "d1/a_last_geom.txt" :: ([] ++ ["d2/a_last_geom.txt"])))
        (basename "d2/a_last_geom.txt") = some demoEntry ∧
     countKey (process_files pfDemo eighDemo allExist readDemo
        ([] ++ "d1/a_last_geom.txt" :: ([] ++ ["d2/a_last_geom.txt"])))
        (basename "d2/a_last_geom.txt") = 1 ∧
     (dictGet (process_files pfDemo eighDemo allExist readDemo
        ([] ++ "d1/a_last_geom.txt" :: ([] ++ ["d2/a_last_geom.txt"])))
        (basename "d2/a_last_geom.txt") = some demoEntry → demoEntry = demoEntry)) :=
  ⟨by decide, by decide, by decide, by decide,
   c10_basename_collision_last_wins pfDemo eighDemo allExist readDemo [] []
     "d1/a_last_geom.txt" "d2/a_last_geom.txt" demoEntry demoEntry
     (by decide) (by decide) (by decide) (by decide)⟩

end MolVol
